import Mathlib

/-!
Verification of the auto-sectioning engine (`backend/app/services/sectioning.py`)
and the QA checker (`backend/app/services/qa_checker.py`) of the muallimi-soniy
repository, together with the diacritic predicates of
`backend/app/services/image_analyzer.py`.

Conventions of the shallow embedding:
* Python floats are modelled as rationals (`ℚ`); all constants appearing in the
  code (0.3, 0.8, 0.05 weights, …) are exact decimal fractions.
* A text unit row (a Python dict coming from the DB) is a record `TextUnit`;
  the `metadata` dict is omitted because none of the modelled functions read it.
* Functions that can raise (`min()` of an empty sequence, a failing `assert`)
  return `Option`, with `none` for the raising run.
* Presentation-only output (the Uzbek `message` strings, truncation of texts to
  50 characters inside `details`) is omitted; the `name`/`passed` fields and
  every quantity that feeds into `passed` or `score` are kept.
-/

/-- A text unit as stored in the DB and consumed by sectioning / QA. -/
structure TextUnit where
  id : Int
  unit_type : String
  text_content : String
  bbox_x : ℚ
  bbox_y : ℚ
  bbox_w : ℚ
  bbox_h : ℚ
  sort_order : Int
  audio_segment_url : Option String
deriving Repr, DecidableEq

/- ─── Arabic text utilities (sectioning.py) ─── -/

/-- The regex class `[ؐ-ًؚ-ٰٟ]` of `_DIACRITICS_RE`. -/
def is_tashkeel (c : Char) : Bool :=
  decide ((0x610 ≤ c.toNat ∧ c.toNat ≤ 0x61A) ∨
          (0x64B ≤ c.toNat ∧ c.toNat ≤ 0x65F) ∨ c.toNat = 0x670)

/-- Model of `strip_diacritics`: remove Arabic diacritical marks from text. -/
def strip_diacritics (text : String) : String :=
  String.mk (text.data.filter (fun c => !is_tashkeel c))

/-- Model of `is_arabic_letter`: `'ء' <= ch <= 'ي' or 'ٱ' <= ch <= 'ۿ'`. -/
def is_arabic_letter (c : Char) : Bool :=
  decide ((0x621 ≤ c.toNat ∧ c.toNat ≤ 0x64A) ∨ (0x671 ≤ c.toNat ∧ c.toNat ≤ 0x6FF))

/-- Model of `extract_arabic_letters`: base Arabic letters of the diacritic-stripped text. -/
def extract_arabic_letters (text : String) : List Char :=
  (strip_diacritics text).data.filter is_arabic_letter

/-- Model of `count_chars`: number of base Arabic letters. -/
def count_chars (text : String) : ℕ :=
  (extract_arabic_letters text).length

/-- Model of `has_diacritics` of sectioning.py: `_DIACRITICS_RE.search(text)` is non-null. -/
def has_diacritics (text : String) : Bool :=
  text.data.any is_tashkeel

/- ─── image_analyzer.py diacritic predicates ─── -/

/-- Membership in the `ARABIC_DIACRITICS` set of image_analyzer.py
(the twelve code points U+064B–U+0655 and U+0670). -/
def in_arabic_diacritics (c : Char) : Bool :=
  decide ((0x64B ≤ c.toNat ∧ c.toNat ≤ 0x655) ∨ c.toNat = 0x670)

/-- Model of `has_arabic_diacritics` of image_analyzer.py. -/
def has_arabic_diacritics (text : String) : Bool :=
  text.data.any in_arabic_diacritics

/-- Model of `count_diacritics` of image_analyzer.py. -/
def count_diacritics (text : String) : ℕ :=
  text.data.countP in_arabic_diacritics

/- ─── qa_checker.py ─── -/

/-- The `name`/`passed` part of one check's result dict. -/
structure CheckRes where
  name : String
  passed : Bool
deriving Repr, DecidableEq

/-- Model of `check_unit_count`: passes when `len(units) >= min_units`. -/
def check_unit_count (units : List TextUnit) (min_units : ℕ) : CheckRes :=
  ⟨"unit_count", decide (min_units ≤ units.length)⟩

/-- Model of `any('؀' <= c <= 'ۿ' for c in text)` in `check_diacritics_presence`. -/
def has_arabic_chars (text : String) : Bool :=
  text.data.any (fun c => decide (0x600 ≤ c.toNat ∧ c.toNat ≤ 0x6FF))

/-- Model of `total_arabic_units` counter of the `check_diacritics_presence` loop. -/
def total_arabic_units (units : List TextUnit) : ℕ :=
  units.countP (fun u => has_arabic_chars u.text_content)

/-- Model of `units_with_diacritics` counter of the `check_diacritics_presence` loop
(incremented only for units that already counted as Arabic). -/
def units_with_diacritics (units : List TextUnit) : ℕ :=
  units.countP (fun u => has_arabic_chars u.text_content && has_arabic_diacritics u.text_content)

/-- Model of `check_diacritics_presence`: trivially passes with no Arabic units, else
passes iff `ratio >= 0.8`. -/
def check_diacritics_presence (units : List TextUnit) : CheckRes :=
  ⟨"diacritics_presence",
    if total_arabic_units units = 0 then true
    else decide ((units_with_diacritics units : ℚ) / (total_arabic_units units : ℚ) ≥ 0.8)⟩

/-- Rectangle intersection area of two units' bounding boxes. -/
def overlap_area (u1 u2 : TextUnit) : ℚ :=
  let overlap_x := max 0 (min (u1.bbox_x + u1.bbox_w) (u2.bbox_x + u2.bbox_w) - max u1.bbox_x u2.bbox_x)
  let overlap_y := max 0 (min (u1.bbox_y + u1.bbox_h) (u2.bbox_y + u2.bbox_h) - max u1.bbox_y u2.bbox_y)
  overlap_x * overlap_y

/-- Bounding-box area `w * h` of a unit. -/
def box_area (u : TextUnit) : ℚ :=
  u.bbox_w * u.bbox_h

/-- One iteration body of the `check_overlaps` double loop: the pair is skipped
when a width is zero, else flagged when `overlap_area / min_area > 0.3` with
`min_area` defaulting to 1 when the smaller area is not positive. -/
def overlap_flag (u1 u2 : TextUnit) : Bool :=
  if u1.bbox_w = 0 ∨ u2.bbox_w = 0 then false
  else
    let min_area := if 0 < min (box_area u1) (box_area u2)
                    then min (box_area u1) (box_area u2) else 1
    decide (overlap_area u1 u2 / min_area > 0.3)

/-- The `overlaps` list built by `check_overlaps` over all pairs `i < j`,
recorded as `(sort_order, sort_order)` pairs. -/
def overlap_pairs : List TextUnit → List (Int × Int)
  | [] => []
  | u :: rest =>
    (rest.filterMap (fun v => if overlap_flag u v then some (u.sort_order, v.sort_order) else none))
      ++ overlap_pairs rest

/-- Model of `check_overlaps`: passes iff no pair was flagged. -/
def check_overlaps (units : List TextUnit) : CheckRes :=
  ⟨"no_overlaps", decide (overlap_pairs units = [])⟩

/-- ASCII whitespace model of Python's `str.strip()`. -/
def is_py_space (c : Char) : Bool :=
  c == ' ' || c == '\t' || c == '\n' || c == '\x0b' || c == '\x0c' || c == '\r'

/-- Python `text.strip()`. -/
def py_strip (s : String) : String :=
  String.mk (((s.data.dropWhile is_py_space).reverse.dropWhile is_py_space).reverse)

/-- The loop of `check_duplicates`: `seen` maps a trimmed text to the first
`sort_order` carrying it; empty trimmed texts are skipped; later carriers are
reported as `(text, first sort_order, this sort_order)`. -/
def dup_loop : List (String × Int) → List TextUnit → List (String × Int × Int)
  | _, [] => []
  | seen, u :: rest =>
    let text := py_strip u.text_content
    if text = "" then dup_loop seen rest
    else
      match seen.lookup text with
      | some so_a => (text, so_a, u.sort_order) :: dup_loop seen rest
      | none => dup_loop (seen ++ [(text, u.sort_order)]) rest

/-- Model of `check_duplicates`: passes iff the duplicates list is empty. -/
def check_duplicates (units : List TextUnit) : CheckRes :=
  ⟨"no_duplicates", decide (dup_loop [] units = [])⟩

/-- Model of `check_empty_hitboxes`: `passed = True` unconditionally. -/
def check_empty_hitboxes (_units : List TextUnit) : CheckRes :=
  ⟨"hitbox_check", true⟩

/-- Model of `check_audio_coverage`: `passed = True` unconditionally (never blocks). -/
def check_audio_coverage (_units : List TextUnit) : CheckRes :=
  ⟨"audio_coverage", true⟩

/-- The `weights` dict of `run_qa_checks`, with its `.get(name, 0.1)` default. -/
def check_weight (name : String) : ℚ :=
  if name = "unit_count" then 0.15
  else if name = "diacritics_presence" then 0.30
  else if name = "no_overlaps" then 0.20
  else if name = "no_duplicates" then 0.15
  else if name = "hitbox_check" then 0.10
  else if name = "audio_coverage" then 0.10
  else 0.1

/-- Python `round(q, 2)` (round half to even at the second decimal). -/
def round_half_even (q : ℚ) : ℤ :=
  if q - ⌊q⌋ < 1/2 then ⌊q⌋
  else if q - ⌊q⌋ > 1/2 then ⌊q⌋ + 1
  else if ⌊q⌋ % 2 = 0 then ⌊q⌋ else ⌊q⌋ + 1

/-- Rounding to two decimal places, as `round(x, 2)`. -/
def round2 (q : ℚ) : ℚ :=
  (round_half_even (q * 100) : ℚ) / 100

/-- The modelled fields of `QAResult`. -/
structure QAResult where
  passed : Bool
  score : ℚ
  checks : List CheckRes
deriving Repr, DecidableEq

/-- Model of `run_qa_checks`: all six checks; `passed` is the conjunction over the
blocking checks (all but `audio_coverage`); `score` is the weighted sum of
passed checks, rounded to two decimals. -/
def run_qa_checks (units : List TextUnit) : QAResult :=
  let checks := [check_unit_count units 1, check_diacritics_presence units,
                 check_overlaps units, check_duplicates units,
                 check_empty_hitboxes units, check_audio_coverage units]
  let blocking_checks := checks.filter (fun c => c.name != "audio_coverage")
  let passed := blocking_checks.all (·.passed)
  let score := (checks.map (fun c => check_weight c.name * (if c.passed then (1 : ℚ) else 0))).sum
  ⟨passed, round2 score, checks⟩

/- ─── sectioning.py: titles ─── -/

/-- The `_LETTER_NAMES_UZ` dict. -/
def letter_names_uz : List (Char × String) :=
  [('ا', "Alif"), ('ب', "Bo"), ('ت', "To"), ('ث', "So"),
   ('ج', "Jim"), ('ح', "Ha"), ('خ', "Xo"), ('د', "Dal"),
   ('ذ', "Zol"), ('ر', "Ro"), ('ز', "Zayn"), ('س', "Sin"),
   ('ش', "Shin"), ('ص', "Sod"), ('ض', "Zod"), ('ط', "To"),
   ('ظ', "Zo"), ('ع', "Ayn"), ('غ', "G\x27ayn"), ('ف', "Fo"),
   ('ق', "Qof"), ('ك', "Kof"), ('ل', "Lom"), ('م', "Mim"),
   ('ن', "Nun"), ('ه', "Ho"), ('و', "Vov"), ('ي', "Yo"),
   ('ک', "Kof"), ('ی', "Yo")]

/-- Model of `_generate_titles`: Arabic and Uzbek titles for a section; `target_letter`
is a one-character string or `None` in Python, an `Option Char` here. -/
def generate_titles (section_type : String) (target_letter : Option Char) : String × String :=
  if section_type = "opening_sentence" then ("بسم الله", "Bismillah")
  else if section_type = "alphabet_grid" then ("الحروف", "Alifbo")
  else if section_type = "divider" then ("", "")
  else
    let letter_ar : String := match target_letter with
      | some c => String.mk [c]
      | none => ""
    let letter_uz : String := match target_letter with
      | some c => (letter_names_uz.lookup c).getD (String.mk [c])
      | none => ""
    if section_type = "letter_introduction" then ("حرف " ++ letter_ar, letter_uz ++ " harfi")
    else if section_type = "letter_drill" then ("تمرين " ++ letter_ar, letter_uz ++ " mashqi")
    else if section_type = "word_drill" then ("كلمات " ++ letter_ar, letter_uz ++ " so\x27zlari")
    else (letter_ar, if letter_uz = "" then "Bo\x27lim" else letter_uz)

/- ─── sectioning.py: Y-axis segmentation ─── -/

/-- The loop body of `_segment_by_y_axis`, recursing on the remaining sorted
units. `prev` is the previously visited sorted unit and `current` the block
being accumulated. A divider closes the (possibly empty, then dropped) current
block and is emitted as a singleton; a gap above the threshold closes the
current block unconditionally (even when it is empty). -/
def seg_aux (gap_threshold : ℚ) : TextUnit → List TextUnit → List TextUnit → List (List TextUnit)
  | _, current, [] => if current = [] then [] else [current]
  | prev, current, curr :: rest =>
    let gap := curr.bbox_y - (prev.bbox_y + prev.bbox_h)
    if curr.unit_type = "divider" then
      (if current = [] then [] else [current]) ++ [curr] :: seg_aux gap_threshold curr [] rest
    else if gap > gap_threshold then
      current :: seg_aux gap_threshold curr [curr] rest
    else
      seg_aux gap_threshold curr (current ++ [curr]) rest

/-- Python's stable `sorted(units, key=lambda u: u['bbox_y'])`.  A stable sort
by a total preorder key has a unique result, so insertion sort models it. -/
def sort_by_y (units : List TextUnit) : List TextUnit :=
  units.insertionSort (fun a b => a.bbox_y ≤ b.bbox_y)

/-- Model of `_segment_by_y_axis`: split units into vertical blocks at Y gaps. -/
def segment_by_y_axis (units : List TextUnit) (gap_threshold : ℚ) : List (List TextUnit) :=
  match sort_by_y units with
  | [] => []
  | u0 :: rest => seg_aux gap_threshold u0 [u0] rest

/- ─── sectioning.py: block classification ─── -/

/-- Model of `max(heights)` over a non-empty Python list, 0 for the empty one. -/
def py_max_list (l : List ℚ) : ℚ :=
  match l with
  | [] => 0
  | x :: xs => xs.foldl max x

/-- Model of `_classify_block`: the heuristic chain of section types.  Each Python
`if … : if inner: return` pair becomes one conjunction in the chain. -/
def classify_block (block : List TextUnit) (block_index : ℕ) (_total_blocks : ℕ) : String :=
  if block = [] then "generic"
  else if block.length = 1 ∧ (block.map (·.unit_type)) = ["divider"] then "divider"
  else
    let unit_types := block.map (·.unit_type)
    let texts := block.map (·.text_content)
    let char_counts := texts.map count_chars
    let sentence_count := unit_types.count "sentence"
    let letter_count := unit_types.count "letter"
    let word_count := unit_types.count "word"
    let total := block.length
    let avg_len : ℚ := ((texts.map (·.length)).sum : ℕ) / (max total 1 : ℕ)
    if block_index = 0 ∧ 1 ≤ sentence_count ∧ total ≤ 3 ∧ avg_len > 10 then "opening_sentence"
    else
      let heights := (block.filter (fun u => u.unit_type == "letter")).map (·.bbox_h)
      let avg_h : ℚ := heights.sum / (heights.length : ℕ)
      let similar := heights.countP (fun hh => decide (|hh - avg_h| / max avg_h 0.01 < 0.3))
      if 14 ≤ letter_count ∧ heights ≠ [] ∧ (similar : ℚ) / (heights.length : ℕ) > 0.7 then
        "alphabet_grid"
      else
        let single_letters := block.filter (fun u => count_chars u.text_content == 1)
        let max_h := py_max_list (single_letters.map (·.bbox_h))
        if total ≤ 5 ∧ single_letters ≠ [] ∧ (single_letters.length : ℚ) ≥ (total : ℕ) * 0.5 ∧
            max_h > 3.0 then "letter_introduction"
        else
          let diacritical_count :=
            texts.countP (fun t => has_diacritics t && decide (count_chars t ≤ 2))
          if ((letter_count : ℚ) ≥ (total : ℕ) * 0.5 ∨ 3 ≤ total) ∧
              (diacritical_count : ℚ) ≥ (total : ℕ) * 0.4 then "letter_drill"
          else
            let multi_letter := char_counts.countP (fun c => decide (2 ≤ c ∧ c ≤ 6))
            if ((word_count : ℚ) ≥ (total : ℕ) * 0.3 ∨ 2 ≤ total) ∧
                (multi_letter : ℚ) ≥ (total : ℕ) * 0.4 then "word_drill"
            else if (letter_count : ℚ) ≥ (total : ℕ) * 0.6 then "letter_drill"
            else "generic"

/- ─── sectioning.py: target letter extraction ─── -/

/-- Worker for `dedup_keep_first`: `seen` collects the keys already emitted. -/
def dedup_go : List Char → List Char → List Char
  | [], _ => []
  | a :: as, seen => if a ∈ seen then dedup_go as seen else a :: dedup_go as (a :: seen)

/-- Keys of `Counter(all_letters)` in dict insertion order, i.e. the letters in
order of first occurrence. -/
def dedup_keep_first (l : List Char) : List Char :=
  dedup_go l []

/-- Python's `max` over `b :: cs` keyed by multiplicity in `l`: a later element
replaces the best one only on a strictly greater count (first maximum wins). -/
def pick_max (l : List Char) (b : Char) : List Char → Char
  | [] => b
  | c :: cs => pick_max l (if l.count b < l.count c then c else b) cs

/-- Model of `Counter(l).most_common(1)`, reduced to its single key:
`heapq.nlargest(1, items, key=count)` is `max` over the insertion-ordered
items, returning the first key attaining the maximal count. -/
def most_common1 (l : List Char) : Option Char :=
  match dedup_keep_first l with
  | [] => none
  | k :: ks => some (pick_max l k ks)

/-- The concatenation of the block's base-letter sequences, in block order
(`all_letters` in `_extract_target_letter`). -/
def block_letters (block : List TextUnit) : List Char :=
  block.flatMap (fun u => extract_arabic_letters u.text_content)

/-- Model of `_extract_target_letter`: majority-vote target letter of a block. -/
def extract_target_letter (block : List TextUnit) (section_type : String) : Option Char :=
  if section_type = "opening_sentence" ∨ section_type = "divider" ∨
      section_type = "alphabet_grid" then none
  else
    let all_letters := block_letters block
    if all_letters = [] then none
    else most_common1 all_letters

/- ─── sectioning.py: auto_section_page ─── -/

/-- A section dict ready for DB insertion. -/
structure SectionRec where
  page_id : Int
  section_type : String
  target_letter : Option Char
  title_ar : String
  title_uz : String
  sort_order : ℕ
  unit_ids : List Int
  bbox_y_start : ℚ
  bbox_y_end : ℚ
  is_manual : Bool
deriving Repr, DecidableEq

/-- Model of `min(seq)` over a non-empty Python sequence (`none` = `ValueError`). -/
def py_min_list (l : List ℚ) : Option ℚ :=
  match l with
  | [] => none
  | x :: xs => some (xs.foldl min x)

/-- Model of `max(seq)` over a non-empty Python sequence (`none` = `ValueError`). -/
def py_max_opt (l : List ℚ) : Option ℚ :=
  match l with
  | [] => none
  | x :: xs => some (xs.foldl max x)

/-- One iteration of the `auto_section_page` loop over blocks, without the
duplicate-id assert: classify, extract the target letter, build titles, sort
the block by `sort_order`, and compute the Y bounds (`none` when the `min` of
an empty block raises `ValueError`). -/
def mk_section (page_id : Int) (total_blocks i : ℕ) (block : List TextUnit) : Option SectionRec :=
  let section_type := classify_block block i total_blocks
  let target_letter := extract_target_letter block section_type
  let titles := generate_titles section_type target_letter
  let block_sorted := block.insertionSort (fun a b => a.sort_order ≤ b.sort_order)
  let unit_ids := block_sorted.map (·.id)
  match py_min_list (block.map (·.bbox_y)),
        py_max_opt (block.map (fun u => u.bbox_y + u.bbox_h)) with
  | some y_start, some y_end =>
    some { page_id := page_id, section_type := section_type, target_letter := target_letter,
           title_ar := titles.1, title_uz := titles.2, sort_order := i, unit_ids := unit_ids,
           bbox_y_start := round2 y_start, bbox_y_end := round2 y_end, is_manual := false }
  | _, _ => none

/-- The per-unit fidelity assert: each `uid` must be new (`none` = raised
`AssertionError`); `seen` grows in order. -/
def add_ids (seen : List Int) : List Int → Option (List Int)
  | [] => some seen
  | uid :: rest => if uid ∈ seen then none else add_ids (seen ++ [uid]) rest

/-- The main loop of `auto_section_page` over the enumerated blocks, threading
the `seen_unit_ids` state. -/
def section_loop (page_id : Int) (total_blocks : ℕ) :
    ℕ → List Int → List (List TextUnit) → Option (List SectionRec × List Int)
  | _, seen, [] => some ([], seen)
  | i, seen, block :: blocks =>
    match mk_section page_id total_blocks i block with
    | none => none
    | some s =>
      match add_ids seen s.unit_ids with
      | none => none
      | some seen1 =>
        match section_loop page_id total_blocks (i + 1) seen1 blocks with
        | none => none
        | some (secs, seen2) => some (s :: secs, seen2)

/-- Model of `auto_section_page`: `[]` on empty input, else segment, build one section
per block, and run the final set-equality fidelity assert. `none` models any
raised exception (`ValueError` of `min`/`max`, `AssertionError`). -/
def auto_section_page (page_id : Int) (units : List TextUnit) (gap_threshold : ℚ) :
    Option (List SectionRec) :=
  if units = [] then some []
  else
    let blocks := segment_by_y_axis units gap_threshold
    match section_loop page_id blocks.length 0 [] blocks with
    | none => none
    | some (secs, seen) =>
      let all_ids := units.map (·.id)
      if seen.all (fun x => all_ids.contains x) && all_ids.all (fun x => seen.contains x)
      then some secs
      else none

/- ─── Concrete inputs used by the theorems below ─── -/

/-- Shorthand constructor for a unit row without audio. -/
def mk_unit (i : Int) (ty txt : String) (x y w h : ℚ) (so : Int) : TextUnit :=
  ⟨i, ty, txt, x, y, w, h, so, none⟩

/-- A letter, then a divider close below it, then a letter far below:
the divider empties `current_block` and the following large gap then emits
that empty block. -/
def c2_units : List TextUnit :=
  [mk_unit 1 "letter" "ب" 0 0 10 1 0,
   mk_unit 2 "divider" "" 0 2 10 1 1,
   mk_unit 3 "letter" "ت" 0 50 10 1 2]

/-- Same crash shape with other ids: non-empty, pairwise-distinct ids. -/
def c1_crash_units : List TextUnit :=
  [mk_unit 10 "letter" "ب" 0 0 10 1 0,
   mk_unit 20 "divider" "" 0 2 10 1 1,
   mk_unit 30 "letter" "ت" 0 60 10 1 2]

/-- Two letters with a small gap: one block, a successful run. -/
def c1_ok_units : List TextUnit :=
  [mk_unit 1 "letter" "ب" 0 0 10 1 0,
   mk_unit 2 "letter" "ت" 0 2 10 1 1]

/-- A divider that is the topmost fragment, with a letter right below it. -/
def c3_units : List TextUnit :=
  [mk_unit 1 "divider" "" 0 0 10 1 0,
   mk_unit 2 "letter" "ب" 0 1.5 10 1 1]

/-- A letter, then a divider below a large gap: the divider is not topmost. -/
def c3_ok_units : List TextUnit :=
  [mk_unit 1 "letter" "ب" 0 0 10 1 0,
   mk_unit 2 "divider" "" 0 10 10 1 1]

/-- One Arabic unit without diacritics: only the diacritics check fails. -/
def c4_units : List TextUnit :=
  [mk_unit 1 "letter" "ب" 0 0 10 10 0]

/-- A unit whose text is the single code point U+0656 (ARABIC SUBSCRIPT ALEF):
inside the classifier's diacritic ranges, outside `ARABIC_DIACRITICS`. -/
def c5_unit : TextUnit :=
  mk_unit 1 "letter" "ٖ" 0 0 10 10 0

/-- Two units whose texts both strip to the empty string. -/
def c6_units : List TextUnit :=
  [mk_unit 1 "letter" "" 0 0 10 10 0,
   mk_unit 2 "letter" " " 0 20 10 10 1]

/-- Box at (0,0) of size 10×10. -/
def c8_box1 : TextUnit := mk_unit 1 "letter" "a" 0 0 10 10 0

/-- Box at (5,5) of size 10×10: intersection 25, smaller area 100. -/
def c8_box2 : TextUnit := mk_unit 2 "letter" "b" 5 5 10 10 1

/-- Box at (5,5) of size 6×6: intersection 25, smaller area 36. -/
def c8_box3 : TextUnit := mk_unit 3 "letter" "c" 5 5 6 6 1

/-- Input for the determinism witness. -/
def c9_units : List TextUnit :=
  [mk_unit 5 "letter" "م" 0 0 4 4 0]

/-- Block whose base letters are ب ت ت ب: a tie between ب and ت. -/
def c10_block : List TextUnit :=
  [mk_unit 1 "letter" "بت" 0 0 1 1 0,
   mk_unit 2 "letter" "تب" 0 2 1 1 1]

/- ─── C2 ─── -/

/-- C2: refuted — `_segment_by_y_axis` emits an empty block on `c2_units`
(divider, then a gap above the threshold), and `auto_section_page` then
raises `ValueError` at `min()` over that empty block (modelled as `none`). -/
theorem C2_empty_block_crash :
    ([] ∈ segment_by_y_axis c2_units 5) ∧ auto_section_page 1 c2_units 5 = none := by
  with_unfolding_all decide

/- ─── C7 ─── -/

/-- C7: on empty input `auto_section_page` returns `[]`, and `run_qa_checks`
fails with `unit_count` as the only failing check and score
`1 - 0.15 = 0.85`. -/
theorem C7_empty_input (page_id : Int) (g : ℚ) :
    auto_section_page page_id [] g = some [] ∧
    (run_qa_checks []).passed = false ∧
    (run_qa_checks []).score = 0.85 ∧
    ((run_qa_checks []).checks.filter (fun c => !c.passed)).map (·.name) = ["unit_count"] ∧
    (0.85 : ℚ) = 1 - check_weight "unit_count" := by
  refine ⟨rfl, ?_, ?_, ?_, ?_⟩ <;> with_unfolding_all decide

/- ─── C9 ─── -/

/-- C9: `auto_section_page` is deterministic — equal inputs give equal
outputs (the embedding is a pure function of its arguments, as the Python
code is: stable sort, insertion-ordered dicts, no randomness). -/
theorem C9_deterministic (p1 p2 : Int) (us1 us2 : List TextUnit) (g1 g2 : ℚ)
    (hp : p1 = p2) (hu : us1 = us2) (hg : g1 = g2) :
    auto_section_page p1 us1 g1 = auto_section_page p2 us2 g2 := by
  subst hp; subst hu; subst hg; rfl

/-- Witness for C9 at a concrete input. -/
theorem C9_deterministic_witness :
    auto_section_page 3 c9_units 5 = auto_section_page 3 c9_units 5 :=
  C9_deterministic 3 3 c9_units c9_units 5 5 rfl rfl rfl

/- ─── counterexamples for C1, C3, C4, C5, C6 ─── -/

/-- C1 as stated is refuted: a non-empty list with pairwise-distinct ids on
which `auto_section_page` raises (returns no section list at all, hence no
partition of the ids). -/
theorem C1_counterexample :
    c1_crash_units ≠ [] ∧ (c1_crash_units.map (·.id)).Nodup ∧
    auto_section_page 7 c1_crash_units 5 = none := by
  refine ⟨?_, ?_, ?_⟩ <;> with_unfolding_all decide

/-- C3 as stated is refuted: `c3_units` contains a topmost divider fragment,
yet the run returns a single section of type `generic` holding both unit ids,
so the divider is not alone in a `divider` section. -/
theorem C3_counterexample :
    (c3_units.map (·.unit_type)).head? = some "divider" ∧
    (auto_section_page 1 c3_units 5).map (fun ss => ss.map fun s => (s.section_type, s.unit_ids))
      = some [("generic", [1, 2])] := by
  refine ⟨?_, ?_⟩ <;> with_unfolding_all decide

/-- C4 as stated is refuted: on `c4_units` the `unit_count`, `no_overlaps` and
`no_duplicates` checks all pass, yet `run_qa_checks` reports `passed = false`
(the failing `diacritics_presence` check is blocking in the code). -/
theorem C4_counterexample :
    (check_unit_count c4_units 1).passed = true ∧
    (check_overlaps c4_units).passed = true ∧
    (check_duplicates c4_units).passed = true ∧
    (run_qa_checks c4_units).passed = false := by
  refine ⟨?_, ?_, ?_, ?_⟩ <;> with_unfolding_all decide

/-- C5 as stated is refuted: the text U+0656 satisfies the classifier's
`has_diacritics` (range U+064B–U+065F), so under the claim the single Arabic
fragment counts as having diacritics and the check should pass; the code
counts with `ARABIC_DIACRITICS` (U+064B–U+0655, U+0670), counts zero, and
fails. -/
theorem C5_counterexample :
    has_diacritics c5_unit.text_content = true ∧
    has_arabic_chars c5_unit.text_content = true ∧
    total_arabic_units [c5_unit] = 1 ∧
    units_with_diacritics [c5_unit] = 0 ∧
    (check_diacritics_presence [c5_unit]).passed = false := by
  refine ⟨?_, ?_, ?_, ?_, ?_⟩ <;> with_unfolding_all decide

/-- C6 as stated is refuted: the two fragments of `c6_units` have identical
trimmed text (both empty), yet the check passes — the code skips fragments
whose trimmed text is empty. -/
theorem C6_counterexample :
    py_strip ((c6_units.map (·.text_content)).getD 0 "x")
      = py_strip ((c6_units.map (·.text_content)).getD 1 "y") ∧
    (check_duplicates c6_units).passed = true := by
  refine ⟨?_, ?_⟩ <;> with_unfolding_all decide

/- ─── C4 amended ─── -/

/-- C4 amended: `passed` is the conjunction of the `unit_count`,
`diacritics_presence`, `no_overlaps` and `no_duplicates` outcomes (the
diacritics check is blocking too); `hitbox_check` and `audio_coverage`
always report `passed = true` and never block. -/
theorem C4_blocking_checks (units : List TextUnit) :
    (run_qa_checks units).passed =
      ((check_unit_count units 1).passed && (check_diacritics_presence units).passed &&
       (check_overlaps units).passed && (check_duplicates units).passed) ∧
    (check_empty_hitboxes units).passed = true ∧
    (check_audio_coverage units).passed = true := by
  refine ⟨?_, rfl, rfl⟩
  have h : (run_qa_checks units).passed =
      ((check_unit_count units 1).passed &&
        ((check_diacritics_presence units).passed &&
          ((check_overlaps units).passed &&
            ((check_duplicates units).passed && (true && true))))) := rfl
  rw [h]
  simp [Bool.and_assoc]

/- ─── C5 amended ─── -/

theorem ratio_ge_iff (w t : ℕ) (ht : t ≠ 0) :
    ((w : ℚ) / (t : ℚ) ≥ 0.8) ↔ 4 * t ≤ 5 * w := by
  have ht0 : (0 : ℚ) < (t : ℚ) := by positivity
  rw [ge_iff_le, show (0.8 : ℚ) = 4/5 by norm_num, div_le_div_iff₀ (by norm_num) ht0]
  constructor
  · intro hle
    have : ((4 * t : ℕ) : ℚ) ≤ ((5 * w : ℕ) : ℚ) := by push_cast; linarith
    exact_mod_cast this
  · intro hle
    have : ((4 * t : ℕ) : ℚ) ≤ ((5 * w : ℕ) : ℚ) := by exact_mod_cast hle
    push_cast at this
    linarith

/-- C5 amended: the check counts a fragment as having diacritics exactly when
its text contains a code point of `ARABIC_DIACRITICS` (U+064B–U+0655 or
U+0670 — narrower than the classifier's U+0610–U+061A, U+064B–U+065F, U+0670
ranges), and passes iff there are no Arabic-containing fragments or the
fraction with diacritics is at least 0.8 (inclusive). -/
theorem C5_diacritics_characterization (units : List TextUnit) :
    ((check_diacritics_presence units).passed = true ↔
      (total_arabic_units units = 0 ∨
        4 * total_arabic_units units ≤ 5 * units_with_diacritics units)) ∧
    (∀ t : String, has_arabic_diacritics t = true ↔
      ∃ c ∈ t.data, (0x64B ≤ c.toNat ∧ c.toNat ≤ 0x655) ∨ c.toNat = 0x670) := by
  constructor
  · show (if total_arabic_units units = 0 then true
        else decide ((units_with_diacritics units : ℚ) / (total_arabic_units units : ℚ) ≥ 0.8))
          = true ↔ _
    by_cases h : total_arabic_units units = 0
    · simp [h]
    · simp only [h, if_false, decide_eq_true_eq,
        ratio_ge_iff (units_with_diacritics units) (total_arabic_units units) h]
      tauto
  · intro t
    simp [has_arabic_diacritics, in_arabic_diacritics]

/- ─── C6 amended ─── -/

/-- The pairwise relation characterizing the duplicates check: two fragments
may share a trimmed text only when that text is empty. -/
def dup_rel (a b : TextUnit) : Prop :=
  py_strip a.text_content = py_strip b.text_content → py_strip a.text_content = ""

theorem lookup_append_none (seen : List (String × Int)) (k k' : String) (v : Int) :
    (seen ++ [(k, v)]).lookup k' = none ↔ seen.lookup k' = none ∧ k' ≠ k := by
  induction seen with
  | nil =>
    simp only [List.nil_append, List.lookup]
    cases h : (k' == k) with
    | true => simp_all
    | false => simp_all
  | cons p seen ih =>
    obtain ⟨a, b⟩ := p
    simp only [List.cons_append, List.lookup]
    cases h : (k' == a) with
    | true => simp
    | false => simpa using ih

theorem dup_loop_nil_iff (us : List TextUnit) : ∀ seen : List (String × Int),
    dup_loop seen us = [] ↔
      ((∀ u ∈ us, py_strip u.text_content ≠ "" →
          seen.lookup (py_strip u.text_content) = none) ∧
        us.Pairwise dup_rel) := by
  induction us with
  | nil => intro seen; simp [dup_loop]
  | cons u rest ih =>
    intro seen
    by_cases h0 : py_strip u.text_content = ""
    · rw [show dup_loop seen (u :: rest) = dup_loop seen rest from by
        simp [dup_loop, h0]]
      rw [ih seen]
      simp only [List.mem_cons, List.pairwise_cons]
      constructor
      · rintro ⟨h1, h2⟩
        exact ⟨fun v hv => by rcases hv with rfl | hv
                              · intro hne; exact absurd h0 hne
                              · exact h1 v hv,
               fun v hv _ => h0, h2⟩
      · rintro ⟨h1, _, h3⟩
        exact ⟨fun v hv => h1 v (Or.inr hv), h3⟩
    · cases hl : seen.lookup (py_strip u.text_content) with
      | some so =>
        rw [show dup_loop seen (u :: rest)
            = (py_strip u.text_content, so, u.sort_order) :: dup_loop seen rest from by
          simp [dup_loop, h0, hl]]
        refine iff_of_false (by simp) ?_
        rintro ⟨h1, -⟩
        have := h1 u (List.mem_cons_self u rest) h0
        rw [hl] at this
        exact Option.noConfusion this
      | none =>
        rw [show dup_loop seen (u :: rest)
            = dup_loop (seen ++ [(py_strip u.text_content, u.sort_order)]) rest from by
          simp [dup_loop, h0, hl]]
        rw [ih _]
        simp only [List.mem_cons, List.pairwise_cons]
        constructor
        · rintro ⟨h1, h2⟩
          refine ⟨?_, ?_, h2⟩
          · rintro v (rfl | hv) hne
            · exact hl
            · exact ((lookup_append_none _ _ _ _).mp (h1 v hv hne)).1
          · intro v hv heq
            by_cases hv0 : py_strip v.text_content = ""
            · rw [heq, hv0]
            · exact absurd heq.symm ((lookup_append_none _ _ _ _).mp (h1 v hv hv0)).2
        · rintro ⟨h1, h2, h3⟩
          refine ⟨?_, h3⟩
          intro v hv hne
          rw [lookup_append_none]
          refine ⟨h1 v (Or.inr hv) hne, ?_⟩
          intro heq
          exact hne (heq ▸ h2 v hv heq.symm)

/-- C6 amended: `no_duplicates` passes iff no two fragments share an identical
*non-empty* trimmed `text_content` (fragments trimming to the empty string are
skipped by the check and may repeat freely). -/
theorem C6_duplicates_characterization (units : List TextUnit) :
    (check_duplicates units).passed = true ↔
      units.Pairwise (fun a b =>
        py_strip a.text_content = py_strip b.text_content → py_strip a.text_content = "") := by
  show decide (dup_loop [] units = []) = true ↔ _
  rw [decide_eq_true_eq, dup_loop_nil_iff]
  constructor
  · rintro ⟨-, h⟩; exact h
  · intro h; exact ⟨fun u _ _ => rfl, h⟩

/- ─── C8 ─── -/

theorem overlap_area_zero (u1 u2 : TextUnit) (w1 : u1.bbox_w ≠ 0) (w2 : u2.bbox_w ≠ 0)
    (h : min (box_area u1) (box_area u2) ≤ 0) : overlap_area u1 u2 = 0 := by
  rw [overlap_area]
  have hx1 := min_le_left (u1.bbox_x + u1.bbox_w) (u2.bbox_x + u2.bbox_w)
  have hx2 := min_le_right (u1.bbox_x + u1.bbox_w) (u2.bbox_x + u2.bbox_w)
  have hx3 := le_max_left u1.bbox_x u2.bbox_x
  have hx4 := le_max_right u1.bbox_x u2.bbox_x
  have hy1 := min_le_left (u1.bbox_y + u1.bbox_h) (u2.bbox_y + u2.bbox_h)
  have hy2 := min_le_right (u1.bbox_y + u1.bbox_h) (u2.bbox_y + u2.bbox_h)
  have hy3 := le_max_left u1.bbox_y u2.bbox_y
  have hy4 := le_max_right u1.bbox_y u2.bbox_y
  rcases min_le_iff.mp h with ha | ha
  · rcases lt_or_gt_of_ne w1 with hw | hw
    · exact mul_eq_zero_of_left (max_eq_left (by linarith)) _
    · have hh : u1.bbox_h ≤ 0 := by
        by_contra hc
        push_neg at hc
        exact absurd (mul_pos hw hc) (not_lt.mpr ha)
      exact mul_eq_zero_of_right _ (max_eq_left (by linarith))
  · rcases lt_or_gt_of_ne w2 with hw | hw
    · exact mul_eq_zero_of_left (max_eq_left (by linarith)) _
    · have hh : u2.bbox_h ≤ 0 := by
        by_contra hc
        push_neg at hc
        exact absurd (mul_pos hw hc) (not_lt.mpr ha)
      exact mul_eq_zero_of_right _ (max_eq_left (by linarith))

theorem overlap_pairs_nil_iff (units : List TextUnit) :
    overlap_pairs units = [] ↔ units.Pairwise (fun a b => overlap_flag a b = false) := by
  induction units with
  | nil => simp [overlap_pairs]
  | cons u rest ih =>
    rw [overlap_pairs, List.append_eq_nil, List.filterMap_eq_nil_iff, ih, List.pairwise_cons]
    constructor
    · rintro ⟨h1, h2⟩
      refine ⟨fun v hv => ?_, h2⟩
      have := h1 v hv
      by_contra hc
      rw [Bool.not_eq_false] at hc
      rw [if_pos hc] at this
      exact Option.noConfusion this
    · rintro ⟨h1, h2⟩
      exact ⟨fun v hv => by rw [if_neg (by rw [h1 v hv]; exact Bool.false_ne_true)], h2⟩

/-- C8: a pair with non-zero widths is flagged exactly when intersection area
over the smaller box area exceeds 0.3; the check passes iff no pair is
flagged; the concrete 10×10 boxes at (0,0)/(5,5) give ratio 0.25 and no flag,
and shrinking the second to 6×6 puts the ratio above 0.3 and flags it. -/
theorem C8_overlap_threshold :
    (∀ u1 u2 : TextUnit, u1.bbox_w ≠ 0 → u2.bbox_w ≠ 0 →
      (overlap_flag u1 u2 = true ↔
        overlap_area u1 u2 / min (box_area u1) (box_area u2) > 0.3)) ∧
    (∀ units : List TextUnit, (check_overlaps units).passed = true ↔
      units.Pairwise (fun a b => overlap_flag a b = false)) ∧
    overlap_area c8_box1 c8_box2 / min (box_area c8_box1) (box_area c8_box2) = 0.25 ∧
    overlap_flag c8_box1 c8_box2 = false ∧
    overlap_area c8_box1 c8_box3 / min (box_area c8_box1) (box_area c8_box3) > 0.3 ∧
    overlap_flag c8_box1 c8_box3 = true := by
  refine ⟨?_, ?_, ?_, ?_, ?_, ?_⟩
  · intro u1 u2 h1 h2
    rw [overlap_flag, if_neg (by tauto : ¬(u1.bbox_w = 0 ∨ u2.bbox_w = 0))]
    by_cases hm : 0 < min (box_area u1) (box_area u2)
    · simp only [hm, if_true, decide_eq_true_eq]
    · have hz := overlap_area_zero u1 u2 h1 h2 (le_of_not_lt hm)
      simp only [hm, if_false, hz, zero_div, decide_eq_true_eq]
  · intro units
    show decide (overlap_pairs units = []) = true ↔ _
    rw [decide_eq_true_eq, overlap_pairs_nil_iff]
  · with_unfolding_all decide
  · with_unfolding_all decide
  · with_unfolding_all decide
  · with_unfolding_all decide

/-- Witness for C8: its pair criterion applied at the concrete 6×6 box. -/
theorem C8_overlap_witness :
    overlap_flag c8_box1 c8_box3 = true ↔
      overlap_area c8_box1 c8_box3 / min (box_area c8_box1) (box_area c8_box3) > 0.3 :=
  C8_overlap_threshold.1 c8_box1 c8_box3
    (by with_unfolding_all decide) (by with_unfolding_all decide)

/- ─── C1 amended: partition of unit ids on every successful run ─── -/

theorem seg_aux_flatten (g : ℚ) :
    ∀ (rest : List TextUnit) (prev : TextUnit) (current : List TextUnit),
      (seg_aux g prev current rest).flatten = current ++ rest
  | [], _, current => by
    by_cases hc : current = [] <;> simp [seg_aux, hc]
  | curr :: rest, prev, current => by
    rw [seg_aux]
    split_ifs with h1 h2 h3
    · simp [h2, seg_aux_flatten g rest]
    · simp [List.flatten_append, seg_aux_flatten g rest]
    · simp [seg_aux_flatten g rest]
    · simp [seg_aux_flatten g rest]

theorem segment_flatten_perm (units : List TextUnit) (g : ℚ) :
    (segment_by_y_axis units g).flatten.Perm units := by
  rw [segment_by_y_axis]
  have hp : (sort_by_y units).Perm units := List.perm_insertionSort _ units
  cases h : sort_by_y units with
  | nil => rw [h] at hp; simpa using hp
  | cons u0 rest =>
    rw [h] at hp
    rw [seg_aux_flatten]
    exact hp

theorem mk_section_some_unit_ids (pid : Int) (n i : ℕ) (block : List TextUnit) (s : SectionRec)
    (h : mk_section pid n i block = some s) : s.unit_ids.Perm (block.map (·.id)) := by
  cases block with
  | nil => exact absurd h (by simp [mk_section, py_min_list])
  | cons b bs =>
    simp only [mk_section, py_min_list, py_max_opt, List.map_cons] at h
    obtain rfl := Option.some.inj h
    exact (List.perm_insertionSort
      (fun a b : TextUnit => a.sort_order ≤ b.sort_order) (b :: bs)).map (·.id)

theorem section_loop_perm (pid : Int) (n : ℕ) :
    ∀ (bs : List (List TextUnit)) (i : ℕ) (seen : List Int)
      (secs : List SectionRec) (seenF : List Int),
      section_loop pid n i seen bs = some (secs, seenF) →
      (secs.flatMap (·.unit_ids)).Perm (bs.flatten.map (·.id))
  | [], i, seen, secs, seenF => by
    intro h
    simp only [section_loop, Option.some.injEq, Prod.mk.injEq] at h
    obtain ⟨rfl, rfl⟩ := h
    simp
  | b :: bs, i, seen, secs, seenF => by
    intro h
    rw [section_loop] at h
    cases hms : mk_section pid n i b with
    | none => simp only [hms] at h; exact Option.noConfusion h
    | some s =>
      simp only [hms] at h
      cases hai : add_ids seen s.unit_ids with
      | none => simp only [hai] at h; exact Option.noConfusion h
      | some seen1 =>
        simp only [hai] at h
        cases hrec : section_loop pid n (i + 1) seen1 bs with
        | none => simp only [hrec] at h; exact Option.noConfusion h
        | some p =>
          obtain ⟨secs2, seenF2⟩ := p
          simp only [hrec, Option.some.injEq, Prod.mk.injEq] at h
          obtain ⟨rfl, rfl⟩ := h
          rw [List.flatMap_cons, List.flatten_cons, List.map_append]
          exact (mk_section_some_unit_ids pid n i b s hms).append
            (section_loop_perm pid n bs (i + 1) seen1 secs2 seenF2 hrec)

/-- C1 amended: whenever `auto_section_page` returns a section list (it can
also raise, see the counterexample), the concatenated `unit_ids` contain each
input fragment id exactly once. -/
theorem C1_partition_when_returns (pid : Int) (units : List TextUnit) (g : ℚ)
    (secs : List SectionRec) (hne : units ≠ []) (hnd : (units.map (·.id)).Nodup)
    (hrun : auto_section_page pid units g = some secs) (x : Int) :
    (secs.flatMap (·.unit_ids)).count x = if x ∈ units.map (·.id) then 1 else 0 := by
  simp only [auto_section_page, if_neg hne] at hrun
  cases hloop : section_loop pid (segment_by_y_axis units g).length 0 []
      (segment_by_y_axis units g) with
  | none => simp only [hloop] at hrun; exact Option.noConfusion hrun
  | some p =>
    obtain ⟨secs0, seen⟩ := p
    simp only [hloop] at hrun
    split_ifs at hrun with hcond
    · obtain rfl := Option.some.inj hrun
      have hperm1 := section_loop_perm pid (segment_by_y_axis units g).length
        (segment_by_y_axis units g) 0 [] secs0 seen hloop
      have hperm : (secs0.flatMap (·.unit_ids)).Perm (units.map (·.id)) :=
        hperm1.trans ((segment_flatten_perm units g).map (·.id))
      rw [hperm.count_eq]
      by_cases hx : x ∈ units.map (·.id)
      · rw [if_pos hx]
        exact List.count_eq_one_of_mem hnd hx
      · rw [if_neg hx]
        exact List.count_eq_zero_of_not_mem hx

/-- The sections returned on `c1_ok_units`. -/
def c1_ok_sections : List SectionRec :=
  [{ page_id := 1, section_type := "letter_drill", target_letter := some 'ب',
     title_ar := "تمرين ب", title_uz := "Bo mashqi", sort_order := 0, unit_ids := [1, 2],
     bbox_y_start := 0, bbox_y_end := 3, is_manual := false }]

set_option maxRecDepth 100000 in
/-- Witness for C1 on a concrete successful run. -/
theorem C1_partition_witness :
    (c1_ok_sections.flatMap (·.unit_ids)).count 1
      = if 1 ∈ c1_ok_units.map (·.id) then 1 else 0 :=
  C1_partition_when_returns 1 c1_ok_units 5 c1_ok_sections
    (by with_unfolding_all decide) (by with_unfolding_all decide)
    (by with_unfolding_all decide) 1

/- ─── C3 amended: dividers not topmost become singleton divider sections ─── -/

theorem seg_aux_divider_singleton (g : ℚ) :
    ∀ (rest : List TextUnit) (prev : TextUnit) (current : List TextUnit) (d : TextUnit),
      d ∈ rest → d.unit_type = "divider" → [d] ∈ seg_aux g prev current rest
  | [], _, _, d => by intro h _; exact absurd h (List.not_mem_nil d)
  | curr :: rest, prev, current, d => by
    intro hmem hty
    rw [seg_aux]
    rcases List.mem_cons.mp hmem with rfl | hmem2
    · rw [if_pos hty]
      exact List.mem_append_right _ (List.mem_cons_self _ _)
    · split_ifs with h1 h2 h3
      · exact List.mem_append_right _
          (List.mem_cons_of_mem _ (seg_aux_divider_singleton g rest curr [] d hmem2 hty))
      · exact List.mem_append_right _
          (List.mem_cons_of_mem _ (seg_aux_divider_singleton g rest curr [] d hmem2 hty))
      · exact List.mem_cons_of_mem _
          (seg_aux_divider_singleton g rest curr [curr] d hmem2 hty)
      · exact seg_aux_divider_singleton g rest curr (current ++ [curr]) d hmem2 hty

theorem section_loop_mem (pid : Int) (n : ℕ) :
    ∀ (bs : List (List TextUnit)) (i : ℕ) (seen : List Int)
      (secs : List SectionRec) (seenF : List Int),
      section_loop pid n i seen bs = some (secs, seenF) →
      ∀ b ∈ bs, ∃ j s, mk_section pid n j b = some s ∧ s ∈ secs
  | [], i, seen, secs, seenF => by
    intro _ b hb
    exact absurd hb (List.not_mem_nil b)
  | b0 :: bs, i, seen, secs, seenF => by
    intro h b hb
    rw [section_loop] at h
    cases hms : mk_section pid n i b0 with
    | none => simp only [hms] at h; exact Option.noConfusion h
    | some s =>
      simp only [hms] at h
      cases hai : add_ids seen s.unit_ids with
      | none => simp only [hai] at h; exact Option.noConfusion h
      | some seen1 =>
        simp only [hai] at h
        cases hrec : section_loop pid n (i + 1) seen1 bs with
        | none => simp only [hrec] at h; exact Option.noConfusion h
        | some p =>
          obtain ⟨secs2, seenF2⟩ := p
          simp only [hrec, Option.some.injEq, Prod.mk.injEq] at h
          obtain ⟨rfl, rfl⟩ := h
          rcases List.mem_cons.mp hb with rfl | hb2
          · exact ⟨i, s, hms, List.mem_cons_self _ _⟩
          · obtain ⟨j, s2, hmk2, hmem2⟩ :=
              section_loop_mem pid n bs (i + 1) seen1 secs2 seenF2 hrec b hb2
            exact ⟨j, s2, hmk2, List.mem_cons_of_mem _ hmem2⟩

theorem classify_block_divider (d : TextUnit) (i n : ℕ) (h : d.unit_type = "divider") :
    classify_block [d] i n = "divider" := by
  simp [classify_block, h]

theorem mk_section_divider (pid : Int) (n j : ℕ) (d : TextUnit) (s : SectionRec)
    (hty : d.unit_type = "divider") (h : mk_section pid n j [d] = some s) :
    s.section_type = "divider" ∧ s.unit_ids = [d.id] := by
  simp only [mk_section, py_min_list, py_max_opt, List.map_cons, List.map_nil] at h
  obtain rfl := Option.some.inj h
  refine ⟨classify_block_divider d j n hty, ?_⟩
  simp [List.insertionSort, List.orderedInsert]

/-- C3 amended: on every successful run, each divider fragment that is not the
first element of the stable bbox_y sort (in particular, not the topmost
fragment) is alone in its own section, and that section's type is `divider`.
(The counterexample shows the topmost-divider case fails.) -/
theorem C3_divider_singleton_when_not_topmost (pid : Int) (units : List TextUnit) (g : ℚ)
    (secs : List SectionRec) (d : TextUnit)
    (hrun : auto_section_page pid units g = some secs)
    (hd : d ∈ (sort_by_y units).tail) (hty : d.unit_type = "divider") :
    ∃ s ∈ secs, s.section_type = "divider" ∧ s.unit_ids = [d.id] := by
  have hne : units ≠ [] := by
    intro h0
    rw [h0] at hd
    simp [sort_by_y, List.insertionSort] at hd
  simp only [auto_section_page, if_neg hne] at hrun
  cases hloop : section_loop pid (segment_by_y_axis units g).length 0 []
      (segment_by_y_axis units g) with
  | none => simp only [hloop] at hrun; exact Option.noConfusion hrun
  | some p =>
    obtain ⟨secs0, seen⟩ := p
    simp only [hloop] at hrun
    split_ifs at hrun with hcond
    obtain rfl := Option.some.inj hrun
    have hblock : [d] ∈ segment_by_y_axis units g := by
      rw [segment_by_y_axis]
      cases hsort : sort_by_y units with
      | nil => rw [hsort] at hd; exact absurd hd (List.not_mem_nil d)
      | cons u0 rest =>
        rw [hsort] at hd
        exact seg_aux_divider_singleton g rest u0 [u0] d hd hty
    obtain ⟨j, s, hmk, hmem⟩ := section_loop_mem pid (segment_by_y_axis units g).length
      (segment_by_y_axis units g) 0 [] secs0 seen hloop [d] hblock
    obtain ⟨h1, h2⟩ := mk_section_divider pid (segment_by_y_axis units g).length j d s hty hmk
    exact ⟨s, hmem, h1, h2⟩

/-- The sections returned on `c3_ok_units`. -/
def c3_ok_sections : List SectionRec :=
  [{ page_id := 1, section_type := "letter_drill", target_letter := some 'ب',
     title_ar := "تمرين ب", title_uz := "Bo mashqi", sort_order := 0, unit_ids := [1],
     bbox_y_start := 0, bbox_y_end := 1, is_manual := false },
   { page_id := 1, section_type := "divider", target_letter := none,
     title_ar := "", title_uz := "", sort_order := 1, unit_ids := [2],
     bbox_y_start := 10, bbox_y_end := 11, is_manual := false }]

set_option maxRecDepth 400000 in
/-- Witness for C3 on a concrete successful run with a non-topmost divider. -/
theorem C3_divider_witness :
    ∃ s ∈ c3_ok_sections, s.section_type = "divider" ∧
      s.unit_ids = [(mk_unit 2 "divider" "" 0 10 10 1 1).id] :=
  C3_divider_singleton_when_not_topmost 1 c3_ok_units 5 c3_ok_sections
    (mk_unit 2 "divider" "" 0 10 10 1 1)
    (by with_unfolding_all decide) (by with_unfolding_all decide)
    (by with_unfolding_all decide)

/- ─── C10: target letter is the first-seen maximum of the letter counts ─── -/

theorem dedup_go_mem : ∀ (as seen : List Char) (b : Char),
    b ∈ dedup_go as seen ↔ (b ∈ as ∧ b ∉ seen)
  | [], seen, b => by simp [dedup_go]
  | a :: as, seen, b => by
    rw [dedup_go]
    split_ifs with h
    · rw [dedup_go_mem as seen b, List.mem_cons]
      constructor
      · rintro ⟨h1, h2⟩
        exact ⟨Or.inr h1, h2⟩
      · rintro ⟨h1 | h1, h2⟩
        · subst h1; exact absurd h h2
        · exact ⟨h1, h2⟩
    · rw [List.mem_cons, dedup_go_mem as (a :: seen) b, List.mem_cons, List.mem_cons]
      by_cases hba : b = a
      · subst hba
        simp [h]
      · simp [hba]
  termination_by as _ _ => as.length

theorem dedup_go_pairwise : ∀ (as seen : List Char),
    List.Pairwise (fun a b => as.indexOf a < as.indexOf b) (dedup_go as seen)
  | [], seen => by simp [dedup_go]
  | a :: as, seen => by
    rw [dedup_go]
    split_ifs with h
    · refine (dedup_go_pairwise as seen).imp_of_mem ?_
      intro x y hx hy hxy
      have hxa : (a == x) = false := beq_eq_false_iff_ne.mpr
        (fun he => ((dedup_go_mem as seen x).mp hx).2 (he ▸ h))
      have hya : (a == y) = false := beq_eq_false_iff_ne.mpr
        (fun he => ((dedup_go_mem as seen y).mp hy).2 (he ▸ h))
      rw [List.indexOf_cons, List.indexOf_cons, hxa, hya]
      simpa using hxy
    · rw [List.pairwise_cons]
      constructor
      · intro y hy
        have hya : (a == y) = false := beq_eq_false_iff_ne.mpr
          (fun he => ((dedup_go_mem as (a :: seen) y).mp hy).2 (he ▸ List.mem_cons_self a seen))
        rw [List.indexOf_cons, List.indexOf_cons, hya, beq_self_eq_true]
        simp
      · refine (dedup_go_pairwise as (a :: seen)).imp_of_mem ?_
        intro x y hx hy hxy
        have hxa : (a == x) = false := beq_eq_false_iff_ne.mpr
          (fun he => ((dedup_go_mem as (a :: seen) x).mp hx).2 (he ▸ List.mem_cons_self a seen))
        have hya : (a == y) = false := beq_eq_false_iff_ne.mpr
          (fun he => ((dedup_go_mem as (a :: seen) y).mp hy).2 (he ▸ List.mem_cons_self a seen))
        rw [List.indexOf_cons, List.indexOf_cons, hxa, hya]
        simpa using hxy
  termination_by as _ => as.length

theorem pick_max_le (l : List Char) : ∀ (cs : List Char) (b : Char),
    l.count b ≤ l.count (pick_max l b cs) ∧
      ∀ x ∈ cs, l.count x ≤ l.count (pick_max l b cs)
  | [], b => ⟨le_refl _, by simp⟩
  | c :: cs, b => by
    rw [pick_max]
    by_cases hbc : l.count b < l.count c
    · rw [if_pos hbc]
      obtain ⟨ih1, ih2⟩ := pick_max_le l cs c
      refine ⟨le_of_lt (lt_of_lt_of_le hbc ih1), ?_⟩
      intro x hx
      rcases List.mem_cons.mp hx with rfl | hx2
      · exact ih1
      · exact ih2 x hx2
    · rw [if_neg hbc]
      obtain ⟨ih1, ih2⟩ := pick_max_le l cs b
      refine ⟨ih1, ?_⟩
      intro x hx
      rcases List.mem_cons.mp hx with rfl | hx2
      · exact le_trans (le_of_not_lt hbc) ih1
      · exact ih2 x hx2

theorem pick_max_split (l : List Char) : ∀ (cs : List Char) (b : Char),
    ∃ pre post, b :: cs = pre ++ pick_max l b cs :: post ∧
      ∀ x ∈ pre, l.count x < l.count (pick_max l b cs)
  | [], b => ⟨[], [], rfl, by simp⟩
  | c :: cs, b => by
    rw [pick_max]
    by_cases hbc : l.count b < l.count c
    · rw [if_pos hbc]
      obtain ⟨pre, post, hsplit, hpre⟩ := pick_max_split l cs c
      refine ⟨b :: pre, post, ?_, ?_⟩
      · rw [List.cons_append, ← hsplit]
      · intro x hx
        rcases List.mem_cons.mp hx with rfl | hx2
        · exact lt_of_lt_of_le hbc (pick_max_le l cs c).1
        · exact hpre x hx2
    · rw [if_neg hbc]
      obtain ⟨pre, post, hsplit, hpre⟩ := pick_max_split l cs b
      cases pre with
      | nil =>
        simp only [List.nil_append, List.cons.injEq] at hsplit
        obtain ⟨hbr, hpost⟩ := hsplit
        exact ⟨[], c :: cs, by rw [List.nil_append, ← hbr], by simp⟩
      | cons p pre2 =>
        rw [List.cons_append, List.cons.injEq] at hsplit
        obtain ⟨rfl, hcs2⟩ := hsplit
        refine ⟨b :: c :: pre2, post, ?_, ?_⟩
        · rw [show b :: c :: cs = b :: c :: (pre2 ++ pick_max l b cs :: post) from by rw [← hcs2]]
          simp [List.cons_append]
        · intro x hx
          rcases List.mem_cons.mp hx with rfl | hx2
          · exact hpre x (List.mem_cons_self _ _)
          · rcases List.mem_cons.mp hx2 with rfl | hx3
            · exact lt_of_le_of_lt (le_of_not_lt hbc) (hpre b (List.mem_cons_self _ _))
            · exact hpre x (List.mem_cons_of_mem _ hx3)

theorem most_common1_spec (l : List Char) (r : Char) (h : most_common1 l = some r) :
    r ∈ l ∧ (∀ d ∈ l, l.count d ≤ l.count r) ∧
      (∀ d ∈ l, l.count d = l.count r → l.indexOf r ≤ l.indexOf d) := by
  rw [most_common1] at h
  cases hd : dedup_keep_first l with
  | nil => rw [hd] at h; exact Option.noConfusion h
  | cons k ks =>
    rw [hd] at h
    obtain rfl := Option.some.inj h
    have hmem_d : ∀ x : Char, x ∈ k :: ks ↔ x ∈ l := by
      intro x
      rw [← hd, dedup_keep_first, dedup_go_mem]
      simp
    obtain ⟨pre, post, hsplit, hpre⟩ := pick_max_split l ks k
    have hle := pick_max_le l ks k
    have hpw : List.Pairwise (fun a b => l.indexOf a < l.indexOf b) (k :: ks) := by
      rw [← hd, dedup_keep_first]
      exact dedup_go_pairwise l []
    refine ⟨(hmem_d _).mp ?_, ?_, ?_⟩
    · rw [hsplit]
      exact List.mem_append_right _ (List.mem_cons_self _ _)
    · intro d hdl
      rcases List.mem_cons.mp ((hmem_d d).mpr hdl) with rfl | hks
      · exact hle.1
      · exact hle.2 d hks
    · intro d hdl hcount
      have hdk : d ∈ k :: ks := (hmem_d d).mpr hdl
      rw [hsplit] at hdk hpw
      rcases List.mem_append.mp hdk with hdpre | hdrp
      · exact absurd hcount (ne_of_lt (hpre d hdpre))
      · rcases List.mem_cons.mp hdrp with rfl | hdpost
        · exact le_refl _
        · exact le_of_lt ((List.pairwise_cons.mp (List.pairwise_append.mp hpw).2.1).1 d hdpost)

/-- C10: `_extract_target_letter` returns `None` for the three excluded
section types and for blocks without base letters; otherwise it returns a
letter of maximal multiplicity in the concatenated base-letter sequence, and
among equally-frequent letters the one whose first occurrence comes earliest
(`Counter` keys are in first-seen order and Python's `max` keeps the first
maximum). -/
theorem C10_target_letter_spec (block : List TextUnit) (st : String) :
    ((st = "opening_sentence" ∨ st = "divider" ∨ st = "alphabet_grid") →
      extract_target_letter block st = none) ∧
    (block_letters block = [] → extract_target_letter block st = none) ∧
    (∀ c, extract_target_letter block st = some c →
      c ∈ block_letters block ∧
      (∀ d ∈ block_letters block,
        (block_letters block).count d ≤ (block_letters block).count c) ∧
      (∀ d ∈ block_letters block,
        (block_letters block).count d = (block_letters block).count c →
          (block_letters block).indexOf c ≤ (block_letters block).indexOf d)) := by
  refine ⟨?_, ?_, ?_⟩
  · intro h
    rw [extract_target_letter, if_pos h]
  · intro h
    simp only [extract_target_letter]
    split_ifs with h1
    · rfl
    · rfl
  · intro c hc
    simp only [extract_target_letter] at hc
    split_ifs at hc with h1 h2
    exact most_common1_spec _ c hc

set_option maxRecDepth 400000 in
/-- Witness for C10 on the concrete tie block (ب and ت both occur twice;
ب is seen first and wins). -/
theorem C10_target_letter_witness :
    (block_letters c10_block).count 'ت' ≤ (block_letters c10_block).count 'ب' ∧
    (block_letters c10_block).indexOf 'ب' ≤ (block_letters c10_block).indexOf 'ت' := by
  have h := (C10_target_letter_spec c10_block "letter_drill").2.2 'ب'
    (by with_unfolding_all decide)
  exact ⟨h.2.1 'ت' (by with_unfolding_all decide),
         h.2.2 'ت' (by with_unfolding_all decide) (by with_unfolding_all decide)⟩
